import Mathlib

/-!
# Verification of the lead-generation pipeline (`app.py`)

A shallow embedding of the geospatial lead-resolution pipeline:
grid generation, API-budget estimation, text-search deduplication,
detail enrichment (region/department extraction), building-footprint
resolution, area estimation, and the final area-threshold aggregation.

Python floats are modelled by exact rationals (`ℚ`).  For this program the
two loop guards of the grid builder compare accumulated values against
bounds that the accumulation never approaches closer than 0.3 degrees,
while the accumulated binary rounding error stays below 1e-13, so the
rational model takes exactly the branches the float code takes.

External collaborators (the HTTP clients, the `shapely` geometry backend)
are not part of the repository; calls into them are modelled as explicit
oracle parameters, and the geometry backend's semantics is modelled from
the spec where noted.
-/

namespace LeadGen

/-! ## Constants (`app.py` lines 23-24) -/

def LAT_MIN : ℚ := 41
def LAT_MAX : ℚ := 103 / 2
def LON_MIN : ℚ := -11 / 2
def LON_MAX : ℚ := 19 / 2
def STEP_LAT : ℚ := 1 / 2
def STEP_LON : ℚ := 7 / 10

/-! ## GridGenerator (`build_france_grid`, lines 28-38)

The two `while` loops are translated with an explicit fuel argument; the
fuel used (64 per loop) strictly exceeds the number of iterations either
guard allows, so the fuelled loop and the source loop agree. -/

/-- Inner `while lon <= LON_MAX` loop of `build_france_grid`. -/
def lonLoop : Nat → ℚ → ℚ → List (ℚ × ℚ)
  | 0, _, _ => []
  | fuel + 1, lat, lon =>
    if lon ≤ LON_MAX then (lat, lon) :: lonLoop fuel lat (lon + STEP_LON) else []

/-- Outer `while lat <= LAT_MAX` loop of `build_france_grid`. -/
def latLoop : Nat → ℚ → List (ℚ × ℚ)
  | 0, _ => []
  | fuel + 1, lat =>
    if lat ≤ LAT_MAX then lonLoop 64 lat LON_MIN ++ latLoop fuel (lat + STEP_LAT) else []

/-- `build_france_grid()`: the grid of sampling points covering France. -/
def build_france_grid : List (ℚ × ℚ) := latLoop 64 LAT_MIN

/-! ## APIBudgetEstimator (`estimate_api_calls`, lines 40-42) -/

/-- `estimate_api_calls(grid_pts)`: returns `len(grid_pts) * 2`
(1 text search + 1 detail call per point, unconditionally). -/
def estimate_api_calls (grid_pts : List (ℚ × ℚ)) : Nat :=
  grid_pts.length * 2

/-- A grid point lies in the closed bounding box. -/
def inBounds (p : ℚ × ℚ) : Prop :=
  LAT_MIN ≤ p.1 ∧ p.1 ≤ LAT_MAX ∧ LON_MIN ≤ p.2 ∧ p.2 ≤ LON_MAX

/-- Closed form of the inner longitude loop: with enough fuel and `n` the
number of in-bounds steps, the loop lists the arithmetic progression. -/
lemma lonLoop_eq_map :
    ∀ (n fuel : Nat) (lat lon : ℚ), n ≤ fuel →
      (∀ j : Nat, j < n → lon + (j : ℚ) * STEP_LON ≤ LON_MAX) →
      LON_MAX < lon + (n : ℚ) * STEP_LON →
      lonLoop fuel lat lon = (List.range n).map (fun j : Nat => (lat, lon + (j : ℚ) * STEP_LON)) := by
  intro n
  induction n with
  | zero =>
    intro fuel lat lon _ _ hout
    rw [Nat.cast_zero, zero_mul, add_zero] at hout
    cases fuel with
    | zero => simp [lonLoop]
    | succ f => simp [lonLoop, not_le.mpr hout]
  | succ n ih =>
    intro fuel lat lon hfuel hin hout
    obtain ⟨f, rfl⟩ : ∃ f, fuel = f + 1 := ⟨fuel - 1, by omega⟩
    have h0 : lon ≤ LON_MAX := by
      have := hin 0 (Nat.succ_pos n)
      simpa using this
    have step : lonLoop (f + 1) lat lon = (lat, lon) :: lonLoop f lat (lon + STEP_LON) := by
      simp [lonLoop, h0]
    rw [step, ih f lat (lon + STEP_LON) (by omega)
      (fun j hj => by
        have := hin (j + 1) (by omega)
        push_cast at this ⊢
        linarith)
      (by push_cast at hout ⊢; linarith)]
    rw [List.range_succ_eq_map, List.map_cons, List.map_map]
    refine congrArg₂ _ (by simp) (List.map_congr_left fun j _ => ?_)
    simp only [Function.comp_apply]
    push_cast
    ring_nf

/-- Closed form of the outer latitude loop. -/
lemma latLoop_eq_bind :
    ∀ (n fuel : Nat) (lat : ℚ), n ≤ fuel →
      (∀ i : Nat, i < n → lat + (i : ℚ) * STEP_LAT ≤ LAT_MAX) →
      LAT_MAX < lat + (n : ℚ) * STEP_LAT →
      latLoop fuel lat =
        (List.range n).flatMap (fun i : Nat => lonLoop 64 (lat + (i : ℚ) * STEP_LAT) LON_MIN) := by
  intro n
  induction n with
  | zero =>
    intro fuel lat _ _ hout
    rw [Nat.cast_zero, zero_mul, add_zero] at hout
    cases fuel with
    | zero => simp [latLoop]
    | succ f => simp [latLoop, not_le.mpr hout]
  | succ n ih =>
    intro fuel lat hfuel hin hout
    obtain ⟨f, rfl⟩ : ∃ f, fuel = f + 1 := ⟨fuel - 1, by omega⟩
    have h0 : lat ≤ LAT_MAX := by
      have := hin 0 (Nat.succ_pos n)
      simpa using this
    have step : latLoop (f + 1) lat = lonLoop 64 lat LON_MIN ++ latLoop f (lat + STEP_LAT) := by
      simp [latLoop, h0]
    rw [step, ih f (lat + STEP_LAT) (by omega)
      (fun i hi => by
        have := hin (i + 1) (by omega)
        push_cast at this ⊢
        linarith)
      (by push_cast at hout ⊢; linarith)]
    rw [List.range_succ_eq_map, List.flatMap_cons, List.flatMap_map]
    refine congrArg₂ _ (by simp) (List.flatMap_congr fun i _ => ?_)
    push_cast
    ring_nf

/-- The grid, in closed form: 22 latitude rows of 22 longitude points. -/
lemma build_france_grid_eq :
    build_france_grid =
      (List.range 22).flatMap (fun i : Nat =>
        (List.range 22).map (fun j : Nat =>
          (LAT_MIN + (i : ℚ) * STEP_LAT, LON_MIN + (j : ℚ) * STEP_LON))) := by
  have hrow : ∀ lat : ℚ, lonLoop 64 lat LON_MIN =
      (List.range 22).map (fun j => (lat, LON_MIN + (j : ℚ) * STEP_LON)) := by
    intro lat
    refine lonLoop_eq_map 22 64 lat LON_MIN (by omega) ?_ ?_
    · intro j hj
      have hj21 : (j : ℚ) ≤ 21 := by exact_mod_cast Nat.lt_succ_iff.mp hj
      rw [LON_MIN, LON_MAX, STEP_LON]
      linarith
    · rw [LON_MIN, LON_MAX, STEP_LON]
      norm_num
  have hlat : latLoop 64 LAT_MIN =
      (List.range 22).flatMap (fun i : Nat => lonLoop 64 (LAT_MIN + (i : ℚ) * STEP_LAT) LON_MIN) := by
    refine latLoop_eq_bind 22 64 LAT_MIN (by omega) ?_ ?_
    · intro i hi
      have hi21 : (i : ℚ) ≤ 21 := by exact_mod_cast Nat.lt_succ_iff.mp hi
      rw [LAT_MIN, LAT_MAX, STEP_LAT]
      linarith
    · rw [LAT_MIN, LAT_MAX, STEP_LAT]
      norm_num
  rw [build_france_grid, hlat]
  exact List.flatMap_congr fun i _ => hrow _

/-- The grid has exactly 22 × 22 = 484 points. -/
lemma build_france_grid_length : build_france_grid.length = 484 := by
  rw [build_france_grid_eq, List.length_flatMap]
  decide

/-- Every grid point lies inside the closed bounding box. -/
lemma build_france_grid_bounds : ∀ p ∈ build_france_grid, inBounds p := by
  intro p hp
  rw [build_france_grid_eq] at hp
  rcases List.mem_flatMap.mp hp with ⟨i, hi, hp⟩
  rcases List.mem_map.mp hp with ⟨j, hj, rfl⟩
  rw [List.mem_range] at hi hj
  have hi' : (i : ℚ) ≤ 21 := by exact_mod_cast Nat.lt_succ_iff.mp hi
  have hj' : (j : ℚ) ≤ 21 := by exact_mod_cast Nat.lt_succ_iff.mp hj
  have hi0 : (0 : ℚ) ≤ (i : ℚ) := Nat.cast_nonneg i
  have hj0 : (0 : ℚ) ≤ (j : ℚ) := Nat.cast_nonneg j
  refine ⟨?_, ?_, ?_, ?_⟩ <;>
    simp only [LAT_MIN, LAT_MAX, LON_MIN, LON_MAX, STEP_LAT, STEP_LON] <;>
    linarith

/-! ## Data model

Rows mirror the dictionaries built by `search_places_text` (line 91),
`enrich_place_details` (line 122) and `attach_surfaces` (line 147). -/

/-- One entry of a Google Places text-search response (`p` at line 89):
`p['place_id']` and `p['geometry']['location']`. -/
structure PlaceResult where
  place_id : String
  lat : ℚ
  lng : ℚ
deriving DecidableEq

/-- One row of the candidate DataFrame (lines 91-95). -/
structure CandRow where
  place_id : String
  latitude : ℚ
  longitude : ℚ
deriving DecidableEq

/-- One structured address component of a Place Details response. -/
structure AddressComponent where
  types : List String
  long_name : String
deriving DecidableEq

/-- The `result` object of a Place Details response (line 108); `none`
fields model absent dictionary keys. -/
structure Detail where
  address_components : List AddressComponent
  name : Option String
  international_phone_number : Option String
  website : Option String
  url : Option String
deriving DecidableEq

/-- One row of the enriched DataFrame (lines 122-133). -/
structure EnrichedRow where
  place_id : String
  latitude : ℚ
  longitude : ℚ
  contact_name : String
  contact_phone : String
  contact_website : String
  google_maps_link : String
  pagesjaunes_link : String
  region : Option String
  department : Option String
deriving DecidableEq

/-! ## Geometry backend

Modelled from the spec: the `shapely` library used by `app.py` is external
to the repository.  Per the spec's merge policy (§4.5) and area contract
(§4.6), a polygon's region is abstracted as a finite set of unit cells;
`is_valid` records shapely's closed/non-self-intersecting check, the area
is the measure of the region (union combines regions so shared cells count
once), and truthiness of a geometry is non-emptiness. -/

/-- Modelled from the spec: a shapely polygon — a finite semantic region
plus the validity flag shapely computes for it. -/
structure Polygon where
  cells : Finset (ℤ × ℤ)
  is_valid : Bool
deriving DecidableEq

/-- Modelled from the spec: the area of a polygon's region, in the planar
(degree-squared) units the source's `poly.area` reports. -/
def Polygon.area (p : Polygon) : ℚ :=
  (p.cells.card : ℚ)

/-- Modelled from the spec: `shapely.ops.unary_union` on a list of
polygons — the geometric union of the regions (a union of valid polygons
is valid). -/
def unary_union (ps : List Polygon) : Polygon :=
  { cells := ps.foldl (fun s p => s ∪ p.cells) ∅, is_valid := true }

/-- One element of an Overpass response (`e` at line 53): its `type` tag
and, when present, its `geometry` vertex list as (lat, lon) records. -/
structure OsmElement where
  typ : String
  geometry : Option (List (ℚ × ℚ))
deriving DecidableEq

/-- A geometry-backend oracle: `mkPoly coords` is what `Polygon(coords)`
returns, `none` standing for a raised exception (line 60's `except`). -/
def MkPoly : Type := List (ℚ × ℚ) → Option Polygon

/-! ## FootprintResolver (`get_building_polygon`, lines 44-62)

The HTTP fetch is an oracle argument (`elements` is the parsed
`elements` array of the response, `mkPoly` the polygon constructor);
the loop, the validity filter and the final merge are from the source. -/

/-- One iteration of the `for e in el` loop of `get_building_polygon`:
a `way` element with a geometry is turned into a polygon via
`Polygon(coords)` (with `coords` the (lon, lat) swap of the vertices) and
appended only if `p.is_valid and p.area > 0`; a construction failure is
swallowed by the bare `except`. -/
def accept_step (mkPoly : MkPoly) (polys : List Polygon) (e : OsmElement) : List Polygon :=
  if e.typ = "way" then
    match e.geometry with
    | some g =>
      match mkPoly (g.map (fun pt => (pt.2, pt.1))) with
      | some p => if p.is_valid ∧ 0 < p.area then polys ++ [p] else polys
      | none => polys
    | none => polys
  else polys

/-- The `polys` accumulator after the loop. -/
def accepted_polys (mkPoly : MkPoly) (elements : List OsmElement) : List Polygon :=
  elements.foldl (accept_step mkPoly) []

/-- `get_building_polygon`: `unary_union(polys) if polys else None`, with
`polys` the accepted list. -/
def get_building_polygon (mkPoly : MkPoly) (elements : List OsmElement) : Option Polygon :=
  if (accepted_polys mkPoly elements).isEmpty then none
  else some (unary_union (accepted_polys mkPoly elements))

/-! ## AreaEstimator (`calculate_surface_m2`, lines 64-66) -/

/-- `calculate_surface_m2(poly)`: `poly.area * (111000**2)`. -/
def calculate_surface_m2 (poly : Polygon) : ℚ :=
  poly.area * 111000 ^ 2

/-! ## CandidateSearch (`search_places_text`, lines 68-96)

Pagination talks to the HTTP client; the accumulated `results` list is an
oracle argument.  The row construction and the `drop_duplicates` are from
the source. -/

/-- `drop_duplicates(key)`: keep the first row for each key, preserving
order, as pandas does (a scan remembering the keys already seen). -/
def dropDupAux (key : α → String) : List String → List α → List α
  | _, [] => []
  | seen, r :: rs =>
    if key r ∈ seen then dropDupAux key seen rs
    else r :: dropDupAux key (key r :: seen) rs

/-- `df.drop_duplicates('place_id')` on a list of rows. -/
def drop_duplicates (key : α → String) (rows : List α) : List α :=
  dropDupAux key [] rows

/-- `search_places_text` after pagination: build the candidate rows and
deduplicate them by `place_id`. -/
def search_places_text (results : List PlaceResult) : List CandRow :=
  drop_duplicates (fun r => r.place_id)
    (results.map (fun p => { place_id := p.place_id, latitude := p.lat, longitude := p.lng }))

/-! ## DetailEnricher (`enrich_place_details`, lines 98-135) -/

/-- The `for comp in detail.get('address_components', [])` loop (lines
112-119): each matching component overwrites the variable, so the last
match is kept. -/
def extract_region_department (comps : List AddressComponent) :
    Option String × Option String :=
  comps.foldl (fun acc comp =>
    (if "administrative_area_level_1" ∈ comp.types then some comp.long_name else acc.1,
     if "administrative_area_level_2" ∈ comp.types then some comp.long_name else acc.2))
    (none, none)

/-- `enrich_place_details`: one output row per input row whose detail
lookup succeeds (`detailOf` is the Place Details oracle, `none` modelling
a raised exception, which logs and `continue`s). -/
def enrich_place_details (detailOf : String → Option Detail) (df : List CandRow) :
    List EnrichedRow :=
  df.filterMap (fun r =>
    match detailOf r.place_id with
    | none => none
    | some detail =>
      let rd := extract_region_department detail.address_components
      let name := detail.name.getD "Non dispo"
      some { place_id := r.place_id
             latitude := r.latitude
             longitude := r.longitude
             contact_name := name
             contact_phone := detail.international_phone_number.getD "Non dispo"
             contact_website := detail.website.getD "Non dispo"
             google_maps_link := detail.url.getD "Non dispo"
             pagesjaunes_link :=
               "https://www.pagesjaunes.fr/recherche/" ++ name.replace " " "%20"
             region := rd.1
             department := rd.2 })

/-! ## LeadAggregator (`attach_surfaces`, lines 137-153) -/

/-- A lead's geometry: the building footprint, or the bare coordinate as
fallback (`poly or Point(r['longitude'], r['latitude'])`, line 149). -/
inductive Geom where
  | footprint (p : Polygon)
  | point (lon lat : ℚ)
deriving DecidableEq

/-- One row of the output GeoDataFrame (lines 147-149). -/
structure Lead where
  row : EnrichedRow
  surface_m2 : ℚ
  geometry : Geom
deriving DecidableEq

/-- A building-footprint oracle: `getPoly lat lon` is what
`get_building_polygon(lat, lon)` returns for this run. -/
def GetPoly : Type := ℚ → ℚ → Option Polygon

/-- `calculate_surface_m2(poly) if poly else 0` (line 145). -/
def surf_of (poly : Option Polygon) : ℚ :=
  match poly with
  | some p => calculate_surface_m2 p
  | none => 0

/-- `poly or Point(lon, lat)`: Python's `or` takes the fallback when the
polygon is `None` or falsy (shapely: empty region). -/
def geom_or_point (poly : Option Polygon) (lon lat : ℚ) : Geom :=
  match poly with
  | some p => if p.cells = ∅ then Geom.point lon lat else Geom.footprint p
  | none => Geom.point lon lat

/-- The lead record appended for a retained row (lines 147-149). -/
def mk_lead (getPoly : GetPoly) (r : EnrichedRow) : Lead :=
  { row := r
    surface_m2 := surf_of (getPoly r.latitude r.longitude)
    geometry := geom_or_point (getPoly r.latitude r.longitude) r.longitude r.latitude }

/-- `attach_surfaces(df, min_area)`: per row, resolve the footprint,
compute the surface, keep the row iff `surf >= min_area`. -/
def attach_surfaces (getPoly : GetPoly) (df : List EnrichedRow) (min_area : ℚ) :
    List Lead :=
  df.filterMap (fun r =>
    if min_area ≤ surf_of (getPoly r.latitude r.longitude)
    then some (mk_lead getPoly r) else none)

/-! ## The `main` pipeline (lines 203-222)

The three external services appear as oracles: `searchResults reg dep` is
the paginated result list of the text query scoped by the given
region/department arguments, `detailOf` the details service, `getPoly`
the footprint resolver's backend. -/

/-- The `frames` list (lines 205-215): one scoped search per selected
department, else one per selected region, else a single France-wide
search. -/
def gather_frames (searchResults : Option String → Option String → List PlaceResult)
    (region_filter dept_filter : List String) : List (List CandRow) :=
  if dept_filter ≠ [] then
    dept_filter.map (fun d => search_places_text (searchResults none (some d)))
  else if region_filter ≠ [] then
    region_filter.map (fun r => search_places_text (searchResults (some r) none))
  else
    [search_places_text (searchResults none none)]

/-- `df_pl` (line 216): concatenate the frames and deduplicate by
`place_id`. -/
def candidate_set (searchResults : Option String → Option String → List PlaceResult)
    (region_filter dept_filter : List String) : List CandRow :=
  drop_duplicates (fun r => r.place_id)
    (gather_frames searchResults region_filter dept_filter).flatten

/-- Lines 216-222 of `main`: candidates, then enrichment, then the
surface filter.  No further filtering happens after `attach_surfaces`. -/
def run_pipeline (searchResults : Option String → Option String → List PlaceResult)
    (detailOf : String → Option Detail) (getPoly : GetPoly)
    (region_filter dept_filter : List String) (min_area : ℚ) : List Lead :=
  attach_surfaces getPoly
    (enrich_place_details detailOf (candidate_set searchResults region_filter dept_filter))
    min_area

/-! ## Helper lemmas: deduplication -/

section Dedup

variable {α : Type} (key : α → String)

lemma mem_dropDupAux :
    ∀ (seen : List String) (l : List α) (x : α),
      x ∈ dropDupAux key seen l → x ∈ l ∧ key x ∉ seen := by
  intro seen l
  induction l generalizing seen with
  | nil => intro x hx; simp [dropDupAux] at hx
  | cons r rs ih =>
    intro x hx
    by_cases h : key r ∈ seen
    · rw [dropDupAux, if_pos h] at hx
      obtain ⟨hm, hs⟩ := ih seen x hx
      exact ⟨List.mem_cons_of_mem _ hm, hs⟩
    · rw [dropDupAux, if_neg h] at hx
      rcases List.mem_cons.mp hx with rfl | hx'
      · exact ⟨List.mem_cons_self _ _, h⟩
      · obtain ⟨hm, hs⟩ := ih (key r :: seen) x hx'
        exact ⟨List.mem_cons_of_mem _ hm, fun hxs => hs (List.mem_cons_of_mem _ hxs)⟩

lemma dropDupAux_pairwise :
    ∀ (seen : List String) (l : List α),
      (dropDupAux key seen l).Pairwise (fun a b => key a ≠ key b) := by
  intro seen l
  induction l generalizing seen with
  | nil => simp [dropDupAux]
  | cons r rs ih =>
    by_cases h : key r ∈ seen
    · rw [dropDupAux, if_pos h]; exact ih seen
    · rw [dropDupAux, if_neg h]
      refine List.pairwise_cons.mpr ⟨?_, ih (key r :: seen)⟩
      intro b hb
      have hs := (mem_dropDupAux key _ _ _ hb).2
      exact fun e => hs (by rw [← e]; exact List.mem_cons_self _ _)

lemma dropDupAux_find? (i : String) :
    ∀ (seen : List String) (l : List α), i ∉ seen →
      (dropDupAux key seen l).find? (fun r => key r == i)
        = l.find? (fun r => key r == i) := by
  intro seen l
  induction l generalizing seen with
  | nil => intro _; rfl
  | cons r rs ih =>
    intro hi
    by_cases h : key r ∈ seen
    · have hne : (key r == i) = false :=
        beq_eq_false_iff_ne.mpr (fun e => hi (e ▸ h))
      rw [dropDupAux, if_pos h]
      simp only [List.find?_cons, hne]
      exact ih seen hi
    · by_cases hbeq : key r = i
      · have hbeq' : (key r == i) = true := beq_iff_eq.mpr hbeq
        rw [dropDupAux, if_neg h]
        simp only [List.find?_cons, hbeq']
      · have hbeq' : (key r == i) = false := beq_eq_false_iff_ne.mpr hbeq
        have hi' : i ∉ key r :: seen := by
          intro hmem
          rcases List.mem_cons.mp hmem with e | e
          · exact hbeq e.symm
          · exact hi e
        rw [dropDupAux, if_neg h]
        simp only [List.find?_cons, hbeq']
        exact ih (key r :: seen) hi'

lemma dropDupAux_countP_of_mem (i : String) :
    ∀ (seen : List String) (l : List α), i ∈ seen →
      (dropDupAux key seen l).countP (fun r => key r == i) = 0 := by
  intro seen l
  induction l generalizing seen with
  | nil => intro _; rfl
  | cons r rs ih =>
    intro hi
    by_cases h : key r ∈ seen
    · rw [dropDupAux, if_pos h]; exact ih seen hi
    · have hne : (key r == i) = false :=
        beq_eq_false_iff_ne.mpr (fun e => h (e ▸ hi))
      rw [dropDupAux, if_neg h, List.countP_cons]
      simp only [hne, if_false]
      simpa using ih (key r :: seen) (List.mem_cons_of_mem _ hi)

lemma dropDupAux_countP (i : String) :
    ∀ (seen : List String) (l : List α), i ∉ seen →
      (dropDupAux key seen l).countP (fun r => key r == i)
        = if l.any (fun r => key r == i) then 1 else 0 := by
  intro seen l
  induction l generalizing seen with
  | nil => intro _; rfl
  | cons r rs ih =>
    intro hi
    by_cases h : key r ∈ seen
    · have hne : (key r == i) = false :=
        beq_eq_false_iff_ne.mpr (fun e => hi (e ▸ h))
      rw [dropDupAux, if_pos h, List.any_cons]
      simp only [hne, Bool.false_or]
      exact ih seen hi
    · by_cases hbeq : key r = i
      · have hbeq' : (key r == i) = true := beq_iff_eq.mpr hbeq
        have hi2 : i ∈ key r :: seen := List.mem_cons.mpr (Or.inl hbeq.symm)
        rw [dropDupAux, if_neg h, List.countP_cons, List.any_cons]
        simp only [hbeq', Bool.true_or, if_true, if_pos]
        rw [dropDupAux_countP_of_mem key i (key r :: seen) rs hi2]
      · have hbeq' : (key r == i) = false := beq_eq_false_iff_ne.mpr hbeq
        have hi' : i ∉ key r :: seen := by
          intro hmem
          rcases List.mem_cons.mp hmem with e | e
          · exact hbeq e.symm
          · exact hi e
        rw [dropDupAux, if_neg h, List.countP_cons, List.any_cons]
        simp only [hbeq', if_false, Bool.false_or]
        simpa using ih (key r :: seen) hi'

end Dedup

/-! ## Helper lemmas: aggregation -/

lemma mem_attach_surfaces {getPoly : GetPoly} {df : List EnrichedRow} {ma : ℚ}
    {l : Lead} :
    l ∈ attach_surfaces getPoly df ma ↔
      ∃ r ∈ df, ma ≤ surf_of (getPoly r.latitude r.longitude) ∧ l = mk_lead getPoly r := by
  unfold attach_surfaces
  rw [List.mem_filterMap]
  constructor
  · rintro ⟨r, hr, hf⟩
    by_cases h : ma ≤ surf_of (getPoly r.latitude r.longitude)
    · rw [if_pos h] at hf
      exact ⟨r, hr, h, (Option.some_inj.mp hf).symm⟩
    · rw [if_neg h] at hf
      cases hf
  · rintro ⟨r, hr, h, rfl⟩
    exact ⟨r, hr, by rw [if_pos h]⟩

lemma attach_surfaces_forall (getPoly : GetPoly) (df : List EnrichedRow) (ma : ℚ) :
    (attach_surfaces getPoly df ma).Forall (fun l => ma ≤ l.surface_m2) := by
  rw [List.forall_iff_forall_mem]
  intro l hl
  rcases mem_attach_surfaces.mp hl with ⟨r, _, h, rfl⟩
  simpa [mk_lead] using h

/-! ## Helper lemmas: region/department extraction -/

lemma foldl_pair_fst (comps : List AddressComponent) :
    ∀ acc : Option String × Option String,
      (comps.foldl (fun a c =>
        (if "administrative_area_level_1" ∈ c.types then some c.long_name else a.1,
         if "administrative_area_level_2" ∈ c.types then some c.long_name else a.2)) acc).1
      = comps.foldl
          (fun a c => if "administrative_area_level_1" ∈ c.types then some c.long_name else a)
          acc.1 := by
  induction comps with
  | nil => intro acc; rfl
  | cons c cs ih =>
    intro acc
    simp only [List.foldl_cons]
    exact ih _

lemma foldl_pair_snd (comps : List AddressComponent) :
    ∀ acc : Option String × Option String,
      (comps.foldl (fun a c =>
        (if "administrative_area_level_1" ∈ c.types then some c.long_name else a.1,
         if "administrative_area_level_2" ∈ c.types then some c.long_name else a.2)) acc).2
      = comps.foldl
          (fun a c => if "administrative_area_level_2" ∈ c.types then some c.long_name else a)
          acc.2 := by
  induction comps with
  | nil => intro acc; rfl
  | cons c cs ih =>
    intro acc
    simp only [List.foldl_cons]
    exact ih _

lemma foldl_override (p : AddressComponent → Prop) [DecidablePred p] :
    ∀ (comps : List AddressComponent) (acc : Option String),
      comps.foldl (fun a c => if p c then some c.long_name else a) acc
        = Option.or
            ((comps.reverse.find? (fun c => decide (p c))).map (fun c => c.long_name))
            acc := by
  intro comps
  induction comps with
  | nil => intro acc; rfl
  | cons c cs ih =>
    intro acc
    simp only [List.foldl_cons, List.reverse_cons, List.find?_append]
    rw [ih]
    cases hf : cs.reverse.find? (fun c => decide (p c)) with
    | some x => rfl
    | none =>
      by_cases hp : p c
      · have : (decide (p c)) = true := decide_eq_true hp
        simp [if_pos hp, List.find?, this]
      · have : (decide (p c)) = false := decide_eq_false hp
        simp [if_neg hp, List.find?, this]

lemma extract_region_department_eq (comps : List AddressComponent) :
    extract_region_department comps
      = ((comps.reverse.find?
            (fun c => decide ("administrative_area_level_1" ∈ c.types))).map
            (fun c => c.long_name),
         (comps.reverse.find?
            (fun c => decide ("administrative_area_level_2" ∈ c.types))).map
            (fun c => c.long_name)) := by
  unfold extract_region_department
  refine Prod.ext ?_ ?_
  · rw [foldl_pair_fst comps (none, none),
      foldl_override (fun c => "administrative_area_level_1" ∈ c.types) comps none]
    simp
  · rw [foldl_pair_snd comps (none, none),
      foldl_override (fun c => "administrative_area_level_2" ∈ c.types) comps none]
    simp

/-! ## Helper lemmas: footprint filter -/

lemma mem_accept_step {mkPoly : MkPoly} {acc : List Polygon} {e : OsmElement}
    {p : Polygon} (hp : p ∈ accept_step mkPoly acc e) :
    p ∈ acc ∨ (p.is_valid = true ∧ 0 < p.area) := by
  unfold accept_step at hp
  split at hp
  · split at hp
    · split at hp
      · split at hp
        next hq =>
          rcases List.mem_append.mp hp with h | h
          · exact Or.inl h
          · rw [List.mem_singleton.mp h]
            exact Or.inr hq
        next => exact Or.inl hp
      · exact Or.inl hp
    · exact Or.inl hp
  · exact Or.inl hp

lemma foldl_accept_all (mkPoly : MkPoly) :
    ∀ (els : List OsmElement) (acc : List Polygon) (p : Polygon),
      p ∈ els.foldl (accept_step mkPoly) acc →
      p ∈ acc ∨ (p.is_valid = true ∧ 0 < p.area) := by
  intro els
  induction els with
  | nil => intro acc p hp; exact Or.inl hp
  | cons e es ih =>
    intro acc p hp
    simp only [List.foldl_cons] at hp
    rcases ih _ p hp with h | h
    · exact mem_accept_step h
    · exact Or.inr h

lemma unary_union_pair (p q : Polygon) :
    (unary_union [p, q]).cells = p.cells ∪ q.cells := by
  simp [unary_union]

/-! ## Concrete fixtures for counterexamples and witnesses -/

/-- A polygon whose region is a single unit cell (valid, area 1). -/
def onecell : Polygon := { cells := {(0, 0)}, is_valid := true }

/-- A search oracle answering every scoped query with one fixed place. -/
def exSearch : Option String → Option String → List PlaceResult :=
  fun _ _ => [{ place_id := "pid1", lat := 48, lng := -3 }]

/-- A details oracle whose address components resolve the place to the
region `Normandie`. -/
def exDetail : String → Option Detail :=
  fun _ => some
    { address_components :=
        [{ types := ["administrative_area_level_1"], long_name := "Normandie" }]
      name := some "Site"
      international_phone_number := none
      website := none
      url := none }

/-- A footprint oracle returning the one-cell polygon everywhere. -/
def exPoly : GetPoly := fun _ _ => some onecell

/-- An enriched row located at the fixture's coordinate. -/
def exRow : EnrichedRow :=
  { place_id := "pid1", latitude := 48, longitude := -3, contact_name := "Site",
    contact_phone := "Non dispo", contact_website := "Non dispo",
    google_maps_link := "Non dispo", pagesjaunes_link := "x",
    region := some "Normandie", department := none }

/-- Two address components both tagged as first-level admin divisions. -/
def exDupComponents : List AddressComponent :=
  [{ types := ["administrative_area_level_1"], long_name := "Alpha" },
   { types := ["administrative_area_level_1"], long_name := "Beta" }]

/-- A details oracle exposing the duplicate-tag component list. -/
def exDetailDup : String → Option Detail :=
  fun _ => some
    { address_components := exDupComponents, name := none,
      international_phone_number := none, website := none, url := none }

/-- A polygon constructor that always raises. -/
def exMkNone : MkPoly := fun _ => none

/-- A polygon constructor that always returns the one-cell polygon. -/
def exMkOne : MkPoly := fun _ => some onecell

/-- A `way` element with a one-vertex geometry. -/
def exWay : OsmElement := { typ := "way", geometry := some [(0, 0)] }

/-! ## Claim theorems -/

/-- C1 (counterexample): the claimed post-hoc region filter does not
exist.  With the region filter set to `Bretagne`, a candidate whose
resolved region is `Normandie` still reaches the output: the region field
of the single output Lead is `Normandie`, which is not in the allowed
set. -/
theorem c1_counterexample :
    (run_pipeline exSearch exDetail exPoly ["Bretagne"] [] 1).map
        (fun l => l.row.region) = [some "Normandie"] ∧
    "Normandie" ∉ ["Bretagne"] := by
  constructor
  · norm_num [run_pipeline, candidate_set, gather_frames, search_places_text,
      drop_duplicates, dropDupAux, enrich_place_details, extract_region_department,
      attach_surfaces, mk_lead, surf_of, calculate_surface_m2, Polygon.area,
      exSearch, exDetail, exPoly, onecell, List.filterMap_cons, List.filterMap_nil,
      List.map_cons, List.map_nil,
      show "administrative_area_level_2" ≠ "administrative_area_level_1" from by decide]
  · decide

/-- C1 (amended): the region/department selections only scope which text
queries are issued before the search; the built Lead set undergoes no
post-hoc region/department filter — when the scoped queries return the
same results, the output is identical with or without a region selection
— and a Lead is retained solely by the area threshold. -/
theorem c1_no_posthoc_geo_filter (results : List PlaceResult)
    (detailOf : String → Option Detail) (getPoly : GetPoly) (ma : ℚ)
    (rname : String) :
    (run_pipeline (fun _ _ => results) detailOf getPoly [rname] [] ma
      = run_pipeline (fun _ _ => results) detailOf getPoly [] [] ma) ∧
    (∀ (sr : Option String → Option String → List PlaceResult)
       (rf dfl : List String),
      (run_pipeline sr detailOf getPoly rf dfl ma).Forall
        (fun l => ma ≤ l.surface_m2)) := by
  constructor
  · simp [run_pipeline, candidate_set, gather_frames]
  · intro sr rf dfl
    exact attach_surfaces_forall getPoly _ ma

/-- C2 (counterexample): `estimate_api_calls` takes no enrichment flag
and always predicts two calls per point: on 100 points it returns 200,
never the 100 the claim promises for a disabled-enrichment run. -/
theorem c2_counterexample :
    estimate_api_calls (List.replicate 100 ((46 : ℚ), (2 : ℚ))) = 200 ∧
    200 ≠ 100 * (1 + 0) := by
  constructor
  · simp [estimate_api_calls]
  · decide

/-- C2 (amended): the budget estimator unconditionally assumes a detail
call follows each search call: it returns `points × 2` for every input,
in particular 200 for 100 points. -/
theorem c2_always_double :
    (∀ pts : List (ℚ × ℚ), estimate_api_calls pts = pts.length * 2) ∧
    estimate_api_calls (List.replicate 100 ((46 : ℚ), (2 : ℚ))) = 200 := by
  refine ⟨fun _ => rfl, ?_⟩
  simp [estimate_api_calls]

/-- C3 (counterexample): the claimed point count uses ceilings,
`(⌈(51.5−41)/0.5⌉+1) × (⌈(9.5+5.5)/0.7⌉+1) = 22 × 23 = 506`, but the
grid actually has 484 points: the inclusive stepping loop yields
`⌊·⌋ + 1` columns, and 15/0.7 is not an integer. -/
theorem c3_counterexample :
    build_france_grid.length = 484 ∧
    (⌈(LAT_MAX - LAT_MIN) / STEP_LAT⌉ + 1) * (⌈(LON_MAX - LON_MIN) / STEP_LON⌉ + 1)
      = 506 ∧
    (484 : ℤ) ≠ 506 := by
  refine ⟨build_france_grid_length, ?_, by decide⟩
  have h1 : ⌈(LAT_MAX - LAT_MIN) / STEP_LAT⌉ = (21 : ℤ) := by
    rw [LAT_MAX, LAT_MIN, STEP_LAT, Int.ceil_eq_iff]
    norm_num
  have h2 : ⌈(LON_MAX - LON_MIN) / STEP_LON⌉ = (22 : ℤ) := by
    rw [LON_MAX, LON_MIN, STEP_LON, Int.ceil_eq_iff]
    norm_num
  rw [h1, h2]
  decide

/-- C3 (amended): the grid is a finite list; every point lies within the
closed bounding box [41, 51.5] × [-5.5, 9.5]; and the point count is
`(⌊(51.5−41)/0.5⌋+1) × (⌊(9.5+5.5)/0.7⌋+1) = 22 × 22 = 484`. -/
theorem c3_grid_count_bounds :
    build_france_grid.length = 484 ∧
    (⌊(LAT_MAX - LAT_MIN) / STEP_LAT⌋ + 1) * (⌊(LON_MAX - LON_MIN) / STEP_LON⌋ + 1)
      = (484 : ℤ) ∧
    build_france_grid.Forall inBounds := by
  refine ⟨build_france_grid_length, ?_, ?_⟩
  · have h1 : ⌊(LAT_MAX - LAT_MIN) / STEP_LAT⌋ = (21 : ℤ) := by
      rw [LAT_MAX, LAT_MIN, STEP_LAT, Int.floor_eq_iff]
      norm_num
    have h2 : ⌊(LON_MAX - LON_MIN) / STEP_LON⌋ = (21 : ℤ) := by
      rw [LON_MAX, LON_MIN, STEP_LON, Int.floor_eq_iff]
      norm_num
    rw [h1, h2]
    decide
  · rw [List.forall_iff_forall_mem]
    exact build_france_grid_bounds

/-- C4 (counterexample): when two components both carry the first-level
administrative tag, the enricher keeps the LAST one's long name (`Beta`),
not the first's (`Alpha`) as the claim states — the loop has no break and
each match overwrites the variable. -/
theorem c4_counterexample :
    (enrich_place_details exDetailDup
        [{ place_id := "pid", latitude := 0, longitude := 0 }]).map
        (fun r => r.region) = [some "Beta"] ∧
    (some "Beta" : Option String) ≠ some "Alpha" := by
  constructor
  · simp [enrich_place_details, extract_region_department, exDetailDup,
      exDupComponents]
  · decide

/-- C4 (amended): the enricher sets `region` to the long name of the LAST
component tagged as the first-level administrative division, and
`department` to the long name of the LAST component tagged second-level
(the last match in the component list, i.e. the first match of the
reversed list); when no component carries the tag the field is null and
no error is raised. -/
theorem c4_last_admin_component (comps : List AddressComponent) :
    (extract_region_department comps).1
      = (comps.reverse.find?
          (fun c => decide ("administrative_area_level_1" ∈ c.types))).map
          (fun c => c.long_name) ∧
    (extract_region_department comps).2
      = (comps.reverse.find?
          (fun c => decide ("administrative_area_level_2" ∈ c.types))).map
          (fun c => c.long_name) := by
  rw [extract_region_department_eq]
  exact ⟨rfl, rfl⟩

/-- C5: the aggregation filter is inclusive at the boundary — an enriched
row's Lead is in the output of `attach_surfaces` iff its computed surface
is `≥ min_area`; in particular a surface exactly equal to the threshold is
retained and any strictly smaller one is excluded. -/
theorem c5_threshold_inclusive (getPoly : GetPoly) (df : List EnrichedRow)
    (ma : ℚ) (r : EnrichedRow) (hr : r ∈ df) :
    mk_lead getPoly r ∈ attach_surfaces getPoly df ma ↔
      ma ≤ surf_of (getPoly r.latitude r.longitude) := by
  constructor
  · intro hm
    rcases mem_attach_surfaces.mp hm with ⟨r', _, h, he⟩
    have hrr : r = r' := congrArg Lead.row he
    rw [hrr]
    exact h
  · intro h
    exact mem_attach_surfaces.mpr ⟨r, hr, h, rfl⟩

/-- C5 (witness): a row whose footprint has area exactly `min_area`
(one cell of surface `111000²` against that very threshold) is retained. -/
theorem c5_witness :
    mk_lead exPoly exRow ∈ attach_surfaces exPoly [exRow] (111000 ^ 2) :=
  (c5_threshold_inclusive exPoly [exRow] (111000 ^ 2) exRow (by simp)).mpr
    (by norm_num [exPoly, surf_of, calculate_surface_m2, Polygon.area, onecell])

/-- C6: the candidate set built by `main` (concatenation of the scoped
search frames, deduplicated by `place_id`) has exactly one candidate per
identifier occurring in the frames, and the record kept — coordinate
included — is the first occurrence inserted; the same first-occurrence
rule holds inside each single text search. -/
theorem c6_dedup_first_wins
    (searchResults : Option String → Option String → List PlaceResult)
    (region_filter dept_filter : List String) (i : String) :
    ((candidate_set searchResults region_filter dept_filter).countP
        (fun r => r.place_id == i)
      = if (gather_frames searchResults region_filter dept_filter).flatten.any
            (fun r => r.place_id == i) then 1 else 0) ∧
    ((candidate_set searchResults region_filter dept_filter).find?
        (fun r => r.place_id == i)
      = (gather_frames searchResults region_filter dept_filter).flatten.find?
          (fun r => r.place_id == i)) ∧
    (∀ results : List PlaceResult,
      (search_places_text results).find? (fun r => r.place_id == i)
        = (results.map (fun p =>
            ({ place_id := p.place_id, latitude := p.lat,
               longitude := p.lng } : CandRow))).find?
            (fun r => r.place_id == i)) := by
  refine ⟨?_, ?_, ?_⟩
  · exact dropDupAux_countP (fun r : CandRow => r.place_id) i []
      (gather_frames searchResults region_filter dept_filter).flatten (by simp)
  · exact dropDupAux_find? (fun r : CandRow => r.place_id) i []
      (gather_frames searchResults region_filter dept_filter).flatten (by simp)
  · intro results
    exact dropDupAux_find? (fun r : CandRow => r.place_id) i [] _ (by simp)

/-- C7: every polygon the footprint resolver accepts passed the
`is_valid and area > 0` filter; the result is `None` exactly when no
outline was accepted; and an element whose polygon construction raises is
silently discarded, leaving the accepted list unchanged. -/
theorem c7_validity_filter (mkPoly : MkPoly) (elements : List OsmElement) :
    (accepted_polys mkPoly elements).Forall
        (fun p => p.is_valid = true ∧ 0 < p.area) ∧
    (get_building_polygon mkPoly elements = none ↔
        accepted_polys mkPoly elements = []) ∧
    (∀ g : List (ℚ × ℚ),
      mkPoly (g.map (fun pt => (pt.2, pt.1))) = none →
      accepted_polys mkPoly (elements ++ [{ typ := "way", geometry := some g }])
        = accepted_polys mkPoly elements) := by
  refine ⟨?_, ?_, ?_⟩
  · rw [List.forall_iff_forall_mem]
    intro p hp
    rcases foldl_accept_all mkPoly elements [] p hp with h | h
    · simp at h
    · exact h
  · unfold get_building_polygon
    constructor
    · intro h
      split at h
      · next he => exact List.isEmpty_iff.mp he
      · next => exact absurd h (Option.some_ne_none _)
    · intro h
      rw [h]
      rfl
  · intro g hg
    rw [accepted_polys, accepted_polys, List.foldl_append]
    simp only [List.foldl_cons, List.foldl_nil]
    unfold accept_step
    simp [hg]

/-- C7 (witness): with a constructor that raises on every input, a `way`
element leaves the accepted list unchanged. -/
theorem c7_witness :
    accepted_polys exMkNone ([] ++ [{ typ := "way", geometry := some [] }])
      = accepted_polys exMkNone [] :=
  (c7_validity_filter exMkNone []).2.2 [] rfl

/-- C8: accepted outlines are merged by geometric union — when the
resolver accepts exactly two overlapping rings, the merged footprint it
returns has strictly smaller area than the sum of the two ring areas. -/
theorem c8_union_strict (mkPoly : MkPoly) (elements : List OsmElement)
    (p q : Polygon) (hacc : accepted_polys mkPoly elements = [p, q])
    (hover : (p.cells ∩ q.cells).Nonempty) :
    ∃ u : Polygon, get_building_polygon mkPoly elements = some u ∧
      u.area < p.area + q.area := by
  refine ⟨unary_union [p, q], ?_, ?_⟩
  · unfold get_building_polygon
    rw [hacc]
    rfl
  · have hcard : (p.cells ∪ q.cells).card < p.cells.card + q.cells.card := by
      have h1 := Finset.card_union_add_card_inter p.cells q.cells
      have h2 : 0 < (p.cells ∩ q.cells).card := Finset.card_pos.mpr hover
      omega
    unfold Polygon.area
    rw [unary_union_pair]
    exact_mod_cast hcard

/-- C8 (witness): two identical (hence overlapping) one-cell rings merge
to area 1, strictly below 1 + 1. -/
theorem c8_witness :
    ∃ u : Polygon, get_building_polygon exMkOne [exWay, exWay] = some u ∧
      u.area < onecell.area + onecell.area :=
  c8_union_strict exMkOne [exWay, exWay] onecell onecell
    (by norm_num [accepted_polys, accept_step, exMkOne, exWay, onecell,
      Polygon.area])
    (by simp [onecell])

/-- C9: the area estimate of a present footprint is the planar polygon
area times the square of the fixed 111000 degrees-to-meters factor, and
the area the pipeline uses for an absent footprint is exactly zero. -/
theorem c9_area_formula :
    (∀ p : Polygon, calculate_surface_m2 p = p.area * 111000 ^ 2) ∧
    surf_of none = 0 :=
  ⟨fun _ => rfl, rfl⟩

/-- C10: with a strictly positive minimum-area threshold, every Lead in
the output of the aggregation carries a polygon footprint — the bare
coordinate fallback cannot survive the filter, because a missing (or
empty) footprint has surface 0 < min_area. -/
theorem c10_positive_threshold_footprint (getPoly : GetPoly)
    (df : List EnrichedRow) (ma : ℚ) (hma : 0 < ma) :
    ∀ l ∈ attach_surfaces getPoly df ma,
      ∃ p : Polygon, l.geometry = Geom.footprint p := by
  intro l hl
  rcases mem_attach_surfaces.mp hl with ⟨r, _, h, rfl⟩
  cases hp : getPoly r.latitude r.longitude with
  | none =>
    rw [hp] at h
    simp only [surf_of] at h
    linarith
  | some p =>
    by_cases hc : p.cells = ∅
    · rw [hp] at h
      simp only [surf_of, calculate_surface_m2, Polygon.area, hc,
        Finset.card_empty, Nat.cast_zero, zero_mul] at h
      linarith
    · refine ⟨p, ?_⟩
      simp [mk_lead, geom_or_point, hp, hc]

/-- C10 (witness): with threshold 1 and a one-cell footprint everywhere,
the retained Lead's geometry is a polygon footprint. -/
theorem c10_witness :
    ∃ p : Polygon, (mk_lead exPoly exRow).geometry = Geom.footprint p :=
  c10_positive_threshold_footprint exPoly [exRow] 1 (by norm_num)
    (mk_lead exPoly exRow)
    (mem_attach_surfaces.mpr ⟨exRow, by simp,
      by norm_num [exPoly, surf_of, calculate_surface_m2, Polygon.area, onecell],
      rfl⟩)

end LeadGen
